import Mathlib

/-!
Shallow embedding of `waypoint_eecbs.py` (mcpf-eecbs): the waypoint scenario
parser (`WaypointScenarioParser._parse_scenarios`), the segment decomposition,
the EECBS adapter result handling (`WaypointEECBSRunner._run_eecbs`), and the
segment loop with path stitching (`WaypointEECBSRunner.run_waypoint_scenario`).

Conventions of the embedding:
* grid coordinates are `Int` pairs (Python `int` is unbounded);
* Python text is modelled as `List Char` (`PyStr`), with the string
  operations the source uses (`strip`, `split`, `int(...)`, `float(...)`,
  substring membership) defined by structural recursion so that every
  definition evaluates inside the kernel;
* Python functions that can raise model the escaping exception with `Except`;
* the external solver process and the path-output file are inputs of the
  embedded run loop (the adapter result per segment and the parsed per-agent
  path lists per segment), since the solver binary is outside the repository.
-/

deriving instance DecidableEq for Except

namespace WaypointEecbs

/-- A grid point, as parsed by `int(...)` from the scenario text. -/
abbrev Point := Int × Int

/-- Python text, as a list of characters. -/
abbrev PyStr := List Char

/-- Whitespace, for Python `strip` / `split()`. -/
def isSpace (c : Char) : Bool := c.isWhitespace

/-- Model of Python `s.strip()`: drop whitespace from both ends. -/
def trimChars (s : PyStr) : PyStr :=
  ((s.dropWhile isSpace).reverse.dropWhile isSpace).reverse

/-- Model of Python `s.split(sep)` for a one-character separator: split at
every occurrence, keeping empty pieces (`"".split(t)` is `[""]`). -/
def splitOnChar (sep : Char) : PyStr → List PyStr
  | [] => [[]]
  | c :: rest =>
    if c == sep then [] :: splitOnChar sep rest
    else
      match splitOnChar sep rest with
      | [] => [[c]]
      | h :: t => (c :: h) :: t

/-- Model of Python `s.split()` with no argument: split on whitespace runs
and drop empty pieces. -/
def splitWSChars : PyStr → List PyStr
  | [] => []
  | c :: rest =>
    if isSpace c then splitWSChars rest
    else
      match rest with
      | [] => [[c]]
      | c2 :: _ =>
        if isSpace c2 then [c] :: splitWSChars rest
        else
          match splitWSChars rest with
          | [] => [[c]]
          | h :: t => (c :: h) :: t

/-- All characters are decimal digits. -/
def digitsOnly (l : PyStr) : Bool := l.all Char.isDigit

/-- Value of a nonempty digit string. -/
def digitsVal (l : PyStr) : Nat :=
  l.foldl (fun acc c => 10 * acc + (c.toNat - 48)) 0

/-- A nonempty all-digit string, or `none`. -/
def decDigits? (l : PyStr) : Option Nat :=
  if !l.isEmpty && digitsOnly l then some (digitsVal l) else none

/-- Model of Python `int(s)` on a string: strip surrounding whitespace, allow
an optional sign, then decimal digits.  (Underscore digit separators and
non-ASCII digit forms accepted by Python 3 are not modelled; no claim
depends on them.) -/
def pyInt? (s : PyStr) : Option Int :=
  match trimChars s with
  | '+' :: r => (decDigits? r).map Int.ofNat
  | '-' :: r => (decDigits? r).map (fun n => -(n : Int))
  | r => (decDigits? r).map Int.ofNat

/-- Drop one leading sign character, as Python numeric parsing does. -/
def dropSign : PyStr → PyStr
  | '+' :: r => r
  | '-' :: r => r
  | r => r

/-- Mantissa acceptance for Python `float(...)`: digits, `digits.digits`,
`digits.`, or `.digits`. -/
def mantissaOk (l : PyStr) : Bool :=
  let intPart := l.takeWhile (fun c => c != '.')
  let rest := l.dropWhile (fun c => c != '.')
  match rest with
  | [] => !intPart.isEmpty && digitsOnly intPart
  | _ :: frac =>
      digitsOnly intPart && digitsOnly frac && (!intPart.isEmpty || !frac.isEmpty)

/-- Model of Python `float(s)` acceptance (finite decimal literals with an
optional exponent; `inf`/`nan` spellings and underscores are not modelled —
no claim depends on them).  Only acceptance matters to the parser claims; the
parsed entry keeps the raw text of the field. -/
def pyFloatOk (s : PyStr) : Bool :=
  let t := dropSign (trimChars s)
  let mant := t.takeWhile (fun c => c != 'e' && c != 'E')
  let rest := t.dropWhile (fun c => c != 'e' && c != 'E')
  match rest with
  | [] => mantissaOk mant
  | _ :: ex =>
      let ex2 := dropSign ex
      mantissaOk mant && !ex2.isEmpty && digitsOnly ex2

/-- One parsed scenario line (the dict built by
`WaypointScenarioParser._parse_scenarios`, lines 74-84).  `optimalLength`
keeps the raw text of field 8; the parser only requires that `float(...)`
accepts it, and no later computation reads the value. -/
structure ScenEntry where
  bucket : Int
  mapName : PyStr
  width : Int
  height : Int
  start : Point
  goal : Point
  optimalLength : PyStr
  numWaypoints : Int
  waypoints : List Point
deriving DecidableEq

/-- The waypoint pairing loop (lines 67-71):
`for i in range(0, len(coords)-1, 2): if i+1 < len(coords): pair coords[i], coords[i+1]`.
A trailing token with no partner is never read; an unparsable token inside a
complete pair fails the whole line (`ValueError` caught by the line handler). -/
def pairUp : List PyStr → Option (List Point)
  | [] => some []
  | [_] => some []
  | x :: y :: rest => do
      let px ← pyInt? x
      let py ← pyInt? y
      let ps ← pairUp rest
      return (px, py) :: ps

/-- The `try` body of the line parser (lines 51-84), over the tab-separated
fields: `int`/`float` conversions in source order, then the waypoint payload
of field 10 when present.  `none` models the caught `ValueError`. -/
def parseFields (parts : List PyStr) : Option ScenEntry := do
  let bucket ← pyInt? (parts.getD 0 [])
  let width ← pyInt? (parts.getD 2 [])
  let height ← pyInt? (parts.getD 3 [])
  let sx ← pyInt? (parts.getD 4 [])
  let sy ← pyInt? (parts.getD 5 [])
  let gx ← pyInt? (parts.getD 6 [])
  let gy ← pyInt? (parts.getD 7 [])
  if pyFloatOk (parts.getD 8 []) then
    let nw ← pyInt? (parts.getD 9 [])
    let wps ← if parts.length > 10 then pairUp (splitWSChars (parts.getD 10 [])) else some []
    some ⟨bucket, parts.getD 1 [], width, height, (sx, sy), (gx, gy),
          parts.getD 8 [], nw, wps⟩
  else none

/-- Fate of one raw scenario line: a parsed entry, a silent skip (blank line or
fewer than 10 tab fields, lines 42-47), or a skip that prints a warning (the
`except (ValueError, IndexError)` branch, lines 86-89). -/
inductive LineResult where
  | entry (e : ScenEntry)
  | skipSilent
  | skipWarn (line : PyStr)
deriving DecidableEq

/-- Per-line behaviour of `_parse_scenarios` (lines 40-89). -/
def parseLine (raw : PyStr) : LineResult :=
  let line := trimChars raw
  if line = [] then .skipSilent
  else
    let parts := splitOnChar '\t' line
    if parts.length < 10 then .skipSilent
    else
      match parseFields parts with
      | some e => .entry e
      | none => .skipWarn line

/-- Fold `parseLine` over the lines, collecting entries in order and the lines
reported with a warning. -/
def parseLines : List PyStr → List ScenEntry × List PyStr
  | [] => ([], [])
  | l :: rest =>
    let res := parseLines rest
    match parseLine l with
    | .entry e => (e :: res.1, res.2)
    | .skipSilent => res
    | .skipWarn w => (res.1, w :: res.2)

/-- `_parse_scenarios`: skip the version line, then parse every remaining
line.  Returns the scenario list and the warned lines. -/
def parseScenarios (lines : List PyStr) : List ScenEntry × List PyStr :=
  parseLines (lines.drop 1)

/-- An agent's route (line 283): `[start] + waypoints + [goal]`. -/
def route (e : ScenEntry) : List Point :=
  e.start :: (e.waypoints ++ [e.goal])

/-- `num_segments = max(len(seq) - 1 for seq in seqs)` (line 285).  Python
`max` raises on an empty batch; the fold with base 0 agrees with it on every
nonempty batch (route lengths are at least 1). -/
def numSegments (seqs : List (List Point)) : Nat :=
  (seqs.map (fun s => s.length - 1)).foldl max 0

/-- One agent's (start, end) pair for segment `i` (lines 300-310): the hop
`(seq[i], seq[i+1])` while the route still has hops, else the stationary pair
`(seq[-1], seq[-1])`. -/
def segPair (seq : List Point) (i : Nat) : Point × Point :=
  if i < seq.length - 1 then (seq.getD i (0, 0), seq.getD (i + 1) (0, 0))
  else (seq.getLastD (0, 0), seq.getLastD (0, 0))

/-- The full decomposition: for each segment index in
`range (numSegments seqs)`, each agent's pair in agent order. -/
def decompose (seqs : List (List Point)) : List (List (Point × Point)) :=
  (List.range (numSegments seqs)).map (fun i => seqs.map (fun seq => segPair seq i))

/-- The two-agent example of spec section 8: agent 0 starts at `(0,0)` with
waypoint `(2,2)` and goal `(4,4)`; agent 1 starts at `(1,1)` with no
waypoints and goal `(3,3)`. -/
def exampleEntries : List ScenEntry :=
  [⟨0, "map.map".toList, 8, 8, (0, 0), (4, 4), "0.0".toList, 1, [(2, 2)]⟩,
   ⟨0, "map.map".toList, 8, 8, (1, 1), (3, 3), "0.0".toList, 0, []⟩]

/-- Failure reasons produced by `_run_eecbs` (the strings of its failure
dicts, structured): nonzero return code (line 165), the dead empty-output
guard (line 174), a final line without the `Succeed` marker (line 182), a
`ValueError` from `int(parts[4])` caught by the blanket `except` (lines
191, 208), `subprocess.TimeoutExpired` (line 203), and any other exception
(line 208). -/
inductive FailReason where
  | badReturnCode (code : Int)
  | noOutput
  | noSucceedMarker (line : PyStr)
  | costParseError (field : PyStr)
  | timeout (seconds : Int)
  | execError
deriving DecidableEq

/-- Structured result of `_run_eecbs`: on success the optional cost, else the
failure reason. -/
inductive SolveResult where
  | ok (cost : Option Int)
  | err (reason : FailReason)
deriving DecidableEq

/-- Whether a solve result is a success. -/
def SolveResult.isOk : SolveResult → Bool
  | .ok _ => true
  | .err _ => false

/-- Whether `needle` occurs at the start of `hay`. -/
def startsWithChars : PyStr → PyStr → Bool
  | [], _ => true
  | _ :: _, [] => false
  | a :: as, b :: bs => a == b && startsWithChars as bs

/-- Whether `needle` occurs contiguously anywhere in `hay`. -/
def hasSubChars (needle : PyStr) : PyStr → Bool
  | [] => needle.isEmpty
  | b :: bs => startsWithChars needle (b :: bs) || hasSubChars needle bs

/-- Model of Python `'Succeed' in result_line`. -/
def containsSucceed (s : PyStr) : Bool :=
  hasSubChars "Succeed".toList s

/-- The last line of the stripped solver stdout:
`result.stdout.strip().split('\n')[-1]` (lines 173, 181). -/
def lastLine (out : PyStr) : PyStr :=
  (splitOnChar '\n' (trimChars out)).getLastD []

/-- Post-processing of a normally terminated solver process in `_run_eecbs`
(lines 165-201): reject a nonzero return code; take the last stdout line;
require the `Succeed` marker; read the cost from the fifth comma field when
there are at least five fields — `int(parts[4])` raising `ValueError` is
caught by the blanket `except` and surfaces as a failure dict. -/
def processEecbsResult (returncode : Int) (stdout : PyStr) : SolveResult :=
  if returncode ≠ 0 then .err (.badReturnCode returncode)
  else
    let outputLines := splitOnChar '\n' (trimChars stdout)
    if outputLines = [] then .err .noOutput
    else
      let resultLine := outputLines.getLastD []
      if containsSucceed resultLine = false then .err (.noSucceedMarker resultLine)
      else
        let parts := splitOnChar ',' resultLine
        if 5 ≤ parts.length then
          match pyInt? (parts.getD 4 []) with
          | some c => .ok (some c)
          | none => .err (.costParseError (parts.getD 4 []))
        else .ok none

/-- Behaviour of the external solver process for one invocation. -/
inductive ProcBehavior where
  | completed (returncode : Int) (stdout : PyStr)
  | timedOut
  | raised
deriving DecidableEq

/-- `_run_eecbs` (lines 162-212) as a function of the process behaviour:
`subprocess.TimeoutExpired` and every other exception are caught and turned
into failure dicts; a completed process goes through output processing. -/
def runEecbsModel (timeoutSecs : Int) : ProcBehavior → SolveResult
  | .timedOut => .err (.timeout timeoutSecs)
  | .raised => .err .execError
  | .completed rc out => processEecbsResult rc out

/-- `result['cost'] if result['cost'] else 0` (line 352): `None` and the
falsy `0` both contribute 0. -/
def costContribution : Option Int → Int
  | none => 0
  | some c => if c = 0 then 0 else c

/-- The uncaught Python exception that can escape the stitching loop. -/
inductive RunError where
  | indexError
deriving DecidableEq

/-- Stitching one agent's segment path onto its assembled path (lines
356-366): segment 0 copies the path verbatim; later segments append the path
from index 1 when it has more than one point, else append `path[0]` — which
raises `IndexError` on an empty path. -/
def stitchAgent (seg : Nat) (acc path : List Point) : Except RunError (List Point) :=
  if seg = 0 then .ok path
  else if 1 < path.length then .ok (acc ++ path.drop 1)
  else
    match path with
    | [] => .error .indexError
    | p :: _ => .ok (acc ++ [p])

/-- The per-segment stitching loop over agents in order (lines 356-366):
agent `a` reads `segment_paths[a]` when it exists and `[]` otherwise, and the
first raising agent aborts the whole loop. -/
def stitchAgents (seg : Nat) : List (List Point) → List (List Point) → Except RunError (List (List Point))
  | [], _ => .ok []
  | acc :: accs, ps =>
    match stitchAgent seg acc (ps.headD []) with
    | .error e => .error e
    | .ok first =>
      match stitchAgents seg accs ps.tail with
      | .error e => .error e
      | .ok rest => .ok (first :: rest)

/-- Assembled paths after the first `k` segments have been stitched, starting
from `complete_paths = [[] for _ in range(num_agents)]` (line 291), with the
segment paths supplied per segment index. -/
def stitchUpTo (spaths : Nat → List (List Point)) (numAgents : Nat) : Nat → Except RunError (List (List Point))
  | 0 => .ok (List.replicate numAgents [])
  | k + 1 =>
    match stitchUpTo spaths numAgents k with
    | .error e => .error e
    | .ok complete => stitchAgents k complete (spaths k)

/-- Outcome of `run_waypoint_scenario`'s segment loop: the success dict with
its accumulated cost and assembled paths, or the failure dict identifying the
first failing segment (the code formats it as `"Segment {seg+1} failed: ..."`,
i.e. the 1-based label of the same 0-based index carried here) with the
adapter's reason.  A failure dict carries neither paths nor a total cost. -/
inductive RunResult where
  | completed (totalCost : Int) (completePaths : List (List Point))
  | failed (segIndex : Nat) (reason : FailReason)
deriving DecidableEq

/-- Whether an embedded run returned (rather than letting an exception
escape). -/
def isOkE {α : Type} : Except RunError α → Bool
  | .ok _ => true
  | .error _ => false

/-- The segment loop of `run_waypoint_scenario` (lines 295-377), over the
per-segment adapter results and parsed path files: return the failure dict on
the first failing segment; otherwise accumulate the cost (line 352) and
stitch (lines 355-366), where stitching can raise. -/
def runLoop (solver : Nat → SolveResult) (spaths : Nat → List (List Point)) :
    Nat → Nat → List (List Point) → Int → Except RunError RunResult
  | _, 0, complete, totalCost => .ok (.completed totalCost complete)
  | seg, rem + 1, complete, totalCost =>
    match solver seg with
    | .err reason => .ok (.failed seg reason)
    | .ok cost =>
      match stitchAgents seg complete (spaths seg) with
      | .error e => .error e
      | .ok complete2 => runLoop solver spaths (seg + 1) rem complete2 (totalCost + costContribution cost)

/-- A whole scenario run with `n` segments: the loop from segment 0 with
empty assembled paths and zero cost. -/
def runScenario (solver : Nat → SolveResult) (spaths : Nat → List (List Point))
    (numAgents n : Nat) : Except RunError RunResult :=
  runLoop solver spaths 0 n (List.replicate numAgents []) 0

/-! ### List helper lemmas -/

theorem getLastD_indep {α : Type} : ∀ (l : List α) (d d2 : α), l ≠ [] → l.getLastD d = l.getLastD d2
  | [], _, _, h => absurd rfl h
  | [_], _, _, _ => rfl
  | _ :: _ :: _, _, _, _ => by
    simp only [List.getLastD_cons]

theorem getLastD_append_right {α : Type} (l1 : List α) {l2 : List α} (d : α) (h : l2 ≠ []) :
    (l1 ++ l2).getLastD d = l2.getLastD d := by
  induction l1 with
  | nil => rfl
  | cons a t ih =>
    have hne : t ++ l2 ≠ [] := by
      intro hc
      exact h (List.append_eq_nil.mp hc).2
    calc ((a :: t) ++ l2).getLastD d = (t ++ l2).getLastD a := by
          simp only [List.cons_append, List.getLastD_cons]
      _ = (t ++ l2).getLastD d := getLastD_indep _ _ _ hne
      _ = l2.getLastD d := ih

theorem headD_append_left {α : Type} {l1 : List α} (l2 : List α) (d : α) (h : l1 ≠ []) :
    (l1 ++ l2).headD d = l1.headD d := by
  cases l1 with
  | nil => exact absurd rfl h
  | cons a t => rfl

theorem getD_length_sub_one {α : Type} (l : List α) (d : α) :
    l.getD (l.length - 1) d = l.getLastD d := by
  simp only [List.getD_eq_getElem?_getD, List.getLastD_eq_getLast?, List.getLast?_eq_getElem?]

theorem getLastD_drop_one {α : Type} (l : List α) (d : α) (h : 1 < l.length) :
    (l.drop 1).getLastD d = l.getLastD d := by
  cases l with
  | nil => simp at h
  | cons a t =>
    cases t with
    | nil => simp at h
    | cons b t2 =>
      simp only [List.drop_succ_cons, List.drop_zero, List.getLastD_cons]

theorem base_le_foldl_max (l : List Nat) (b : Nat) : b ≤ l.foldl max b := by
  induction l generalizing b with
  | nil => exact Nat.le_refl b
  | cons a t ih =>
    exact Nat.le_trans (Nat.le_max_left b a) (ih (max b a))

theorem le_foldl_max (l : List Nat) (b : Nat) : ∀ x ∈ l, x ≤ l.foldl max b := by
  induction l generalizing b with
  | nil => intro x hx; simp at hx
  | cons a t ih =>
    intro x hx
    rcases List.mem_cons.mp hx with hx | hx
    · subst hx
      exact Nat.le_trans (Nat.le_max_right b x) (base_le_foldl_max t (max b x))
    · exact ih (max b a) x hx

theorem tail_getD {α : Type} (l : List α) (a : Nat) (d : α) :
    l.tail.getD a d = l.getD (a + 1) d := by
  cases l <;> rfl

theorem headD_eq_getD_zero {α : Type} (l : List α) (d : α) : l.headD d = l.getD 0 d := by
  cases l <;> rfl

/-! ### Stitching lemmas -/


theorem stitchAgent_zero (acc path : List Point) : stitchAgent 0 acc path = .ok path := by
  simp [stitchAgent]

theorem stitchAgent_ok (seg : Nat) (acc path : List Point) (h : seg = 0 ∨ path ≠ []) :
    ∃ res, stitchAgent seg acc path = .ok res := by
  unfold stitchAgent
  by_cases h0 : seg = 0
  · simp [h0]
  · rw [if_neg h0]
    by_cases h1 : 1 < path.length
    · rw [if_pos h1]
      exact ⟨acc ++ path.drop 1, rfl⟩
    · rw [if_neg h1]
      cases path with
      | nil =>
        rcases h with h | h
        · exact absurd h h0
        · exact absurd rfl h
      | cons p t => exact ⟨acc ++ [p], rfl⟩

theorem stitchAgent_props (seg : Nat) (acc path res : List Point)
    (hseg : seg ≠ 0) (hpath : path ≠ [])
    (h : stitchAgent seg acc path = .ok res) :
    res ≠ [] ∧ (acc ≠ [] → res.headD (0, 0) = acc.headD (0, 0)) ∧
    res.getLastD (0, 0) = path.getLastD (0, 0) ∧ acc.length < res.length := by
  unfold stitchAgent at h
  rw [if_neg hseg] at h
  by_cases h1 : 1 < path.length
  · rw [if_pos h1] at h
    have hres : res = acc ++ path.drop 1 := by
      cases h; rfl
    subst hres
    have hdrop : path.drop 1 ≠ [] := by
      intro hc
      have h2 := List.length_drop 1 path
      rw [hc] at h2
      simp at h2
      omega
    refine ⟨?_, ?_, ?_, ?_⟩
    · intro hc
      rcases List.append_eq_nil.mp hc with ⟨_, h2⟩
      exact hdrop h2
    · intro hacc
      exact headD_append_left _ _ hacc
    · rw [getLastD_append_right acc (0, 0) hdrop]
      exact getLastD_drop_one path (0, 0) h1
    · rw [List.length_append]
      have h2 := List.length_drop 1 path
      omega
  · rw [if_neg h1] at h
    cases path with
    | nil => exact absurd rfl hpath
    | cons p t =>
      have ht : t = [] := by
        cases t with
        | nil => rfl
        | cons b t2 => exact absurd (by simp) h1
      subst ht
      have hres : res = acc ++ [p] := by
        cases h; rfl
      subst hres
      refine ⟨by simp, fun hacc => headD_append_left _ _ hacc, ?_, by simp⟩
      rw [getLastD_append_right acc (0, 0) (by simp)]

theorem stitchAgents_ok (seg : Nat) :
    ∀ (accs ps : List (List Point)),
    (∀ a, a < accs.length → seg = 0 ∨ ps.getD a [] ≠ []) →
    ∃ res, stitchAgents seg accs ps = .ok res ∧ res.length = accs.length ∧
      ∀ a, a < accs.length → stitchAgent seg (accs.getD a []) (ps.getD a []) = .ok (res.getD a []) := by
  intro accs
  induction accs with
  | nil =>
    intro ps _
    exact ⟨[], rfl, rfl, fun a ha => absurd ha (by simp)⟩
  | cons acc accs ih =>
    intro ps h
    have h0 : seg = 0 ∨ ps.getD 0 [] ≠ [] := h 0 (by simp)
    rw [← headD_eq_getD_zero] at h0
    obtain ⟨first, hfirst⟩ := stitchAgent_ok seg acc (ps.headD []) h0
    have htail : ∀ a, a < accs.length → seg = 0 ∨ ps.tail.getD a [] ≠ [] := by
      intro a ha
      rw [tail_getD]
      exact h (a + 1) (by simpa using Nat.succ_lt_succ ha)
    obtain ⟨rest, hrest, hlen, hchar⟩ := ih ps.tail htail
    refine ⟨first :: rest, ?_, by simp [hlen], ?_⟩
    · simp only [stitchAgents]
      rw [hfirst, hrest]
    · intro a ha
      cases a with
      | zero =>
        rw [headD_eq_getD_zero ps []] at hfirst
        exact hfirst
      | succ a =>
        have ha2 : a < accs.length := by simpa using Nat.lt_of_succ_lt_succ ha
        have hc := hchar a ha2
        rw [tail_getD] at hc
        exact hc

/-! ### Decomposition and assembled-path lemmas -/


theorem getD_mem {α : Type} (l : List α) (n : Nat) (d : α) (h : n < l.length) : l.getD n d ∈ l := by
  rw [List.getD_eq_getElem l d h]
  exact List.getElem_mem h

theorem segPair_zero_fst (seq : List Point) (h : 2 ≤ seq.length) :
    (segPair seq 0).1 = seq.headD (0, 0) := by
  unfold segPair
  rw [if_pos (by omega)]
  exact (headD_eq_getD_zero seq (0, 0)).symm

theorem segPair_snd_last (seq : List Point) (i : Nat)
    (h : seq.length - 1 ≤ i + 1) : (segPair seq i).2 = seq.getLastD (0, 0) := by
  unfold segPair
  by_cases h1 : i < seq.length - 1
  · rw [if_pos h1]
    have h2 : i + 1 = seq.length - 1 := by omega
    rw [h2]
    exact getD_length_sub_one seq (0, 0)
  · rw [if_neg h1]

theorem stitchUpTo_succ (spaths : Nat → List (List Point)) (n k : Nat) :
    stitchUpTo spaths n (k + 1) = (match stitchUpTo spaths n k with
      | .error e => .error e
      | .ok complete => stitchAgents k complete (spaths k)) := rfl

theorem stitchUpTo_inv (seqs : List (List Point)) (spaths : Nat → List (List Point))
    (hlen : ∀ s ∈ seqs, 2 ≤ s.length) :
    ∀ k, 0 < k →
    (∀ s, s < k → ∀ a, a < seqs.length →
        (spaths s).getD a [] ≠ [] ∧
        ((spaths s).getD a []).headD (0, 0) = (segPair (seqs.getD a []) s).1 ∧
        ((spaths s).getD a []).getLastD (0, 0) = (segPair (seqs.getD a []) s).2) →
    ∃ asm, stitchUpTo spaths seqs.length k = .ok asm ∧ asm.length = seqs.length ∧
      ∀ a, a < seqs.length → asm.getD a [] ≠ [] ∧
        (asm.getD a []).headD (0, 0) = (seqs.getD a []).headD (0, 0) ∧
        (asm.getD a []).getLastD (0, 0) = (segPair (seqs.getD a []) (k - 1)).2 := by
  intro k
  induction k with
  | zero => intro h; exact absurd h (by simp)
  | succ k ih =>
    intro _ hout
    cases k with
    | zero =>
      obtain ⟨res, hres, hreslen, hchar⟩ :=
        stitchAgents_ok 0 (List.replicate seqs.length []) (spaths 0)
          (fun a _ => Or.inl rfl)
      refine ⟨res, ?_, by simpa using hreslen, ?_⟩
      · exact hres
      · intro a ha
        have hc := hchar a (by simpa using ha)
        rw [stitchAgent_zero] at hc
        have hpath := hout 0 (by omega) a ha
        injection hc with hv
        rw [← hv]
        have hmem := getD_mem seqs a [] ha
        have h2 := hlen _ hmem
        refine ⟨hpath.1, ?_, hpath.2.2⟩
        rw [hpath.2.1, segPair_zero_fst _ h2]
    | succ k2 =>
      obtain ⟨asm, hasm, hasmlen, hprops⟩ := ih (by omega)
        (fun s hs a ha => hout s (by omega) a ha)
      have hnonempty : ∀ a, a < asm.length → (k2 + 1) = 0 ∨ (spaths (k2 + 1)).getD a [] ≠ [] := by
        intro a ha
        exact Or.inr (hout (k2 + 1) (by omega) a (hasmlen ▸ ha)).1
      obtain ⟨res, hres, hreslen, hchar⟩ := stitchAgents_ok (k2 + 1) asm (spaths (k2 + 1)) hnonempty
      refine ⟨res, ?_, by omega, ?_⟩
      · rw [stitchUpTo_succ, hasm]
        exact hres
      · intro a ha
        have hp := hout (k2 + 1) (by omega) a ha
        have hprev := hprops a ha
        have hstep := hchar a (by omega)
        obtain ⟨hne2, hhead, hlast, _⟩ :=
          stitchAgent_props (k2 + 1) (asm.getD a []) ((spaths (k2 + 1)).getD a [])
            (res.getD a []) (by omega) hp.1 hstep
        refine ⟨hne2, ?_, ?_⟩
        · rw [hhead hprev.1, hprev.2.1]
        · have he : k2 + 1 + 1 - 1 = k2 + 1 := by omega
          rw [he, hlast, hp.2.2]

/-! ### Run-loop lemmas -/


theorem isOk_exists (r : SolveResult) (h : r.isOk = true) : ∃ c, r = .ok c := by
  cases r with
  | ok c => exact ⟨c, rfl⟩
  | err _ => simp [SolveResult.isOk] at h

theorem runLoop_succ (solver : Nat → SolveResult) (spaths : Nat → List (List Point))
    (seg rem : Nat) (complete : List (List Point)) (cost : Int) :
    runLoop solver spaths seg (rem + 1) complete cost =
      (match solver seg with
       | .err reason => .ok (.failed seg reason)
       | .ok cost2 =>
         match stitchAgents seg complete (spaths seg) with
         | .error e => .error e
         | .ok complete2 => runLoop solver spaths (seg + 1) rem complete2 (cost + costContribution cost2)) := rfl

theorem runLoop_ok (solver : Nat → SolveResult) (spaths : Nat → List (List Point)) :
    ∀ (rem seg : Nat) (complete : List (List Point)) (cost : Int),
    (∀ j a, j < rem → 0 < seg + j → a < complete.length → (spaths (seg + j)).getD a [] ≠ []) →
    ∃ r, runLoop solver spaths seg rem complete cost = .ok r := by
  intro rem
  induction rem with
  | zero =>
    intro seg complete cost _
    exact ⟨.completed cost complete, rfl⟩
  | succ rem ih =>
    intro seg complete cost h
    cases hs : solver seg with
    | err reason =>
      refine ⟨.failed seg reason, ?_⟩
      rw [runLoop_succ, hs]
    | ok c =>
      have hyp : ∀ a, a < complete.length → seg = 0 ∨ (spaths seg).getD a [] ≠ [] := by
        intro a ha
        by_cases h0 : seg = 0
        · exact Or.inl h0
        · refine Or.inr ?_
          have h2 := h 0 a (by omega) (by omega) ha
          simpa using h2
      obtain ⟨res, hres, hreslen, _⟩ := stitchAgents_ok seg complete (spaths seg) hyp
      have hshift : ∀ j a, j < rem → 0 < seg + 1 + j → a < res.length → (spaths (seg + 1 + j)).getD a [] ≠ [] := by
        intro j a hj hpos ha
        have h2 := h (j + 1) a (by omega) (by omega) (by omega)
        have he : seg + (j + 1) = seg + 1 + j := by omega
        rwa [he] at h2
      obtain ⟨r, hr⟩ := ih (seg + 1) res (cost + costContribution c) hshift
      refine ⟨r, ?_⟩
      rw [runLoop_succ, hs, hres]
      exact hr

theorem runLoop_first_fail (solver : Nat → SolveResult) (spaths : Nat → List (List Point))
    (reason : FailReason) :
    ∀ (k seg rem : Nat) (complete : List (List Point)) (cost : Int),
    k < rem →
    solver (seg + k) = .err reason →
    (∀ j, j < k → (solver (seg + j)).isOk = true) →
    (∀ j a, j < k → 0 < seg + j → a < complete.length → (spaths (seg + j)).getD a [] ≠ []) →
    runLoop solver spaths seg rem complete cost = .ok (.failed (seg + k) reason) := by
  intro k
  induction k with
  | zero =>
    intro seg rem complete cost hrem hfail _ _
    cases rem with
    | zero => omega
    | succ rem =>
      rw [runLoop_succ]
      rw [show seg + 0 = seg from rfl] at hfail
      rw [hfail]
      rfl
  | succ k ih =>
    intro seg rem complete cost hrem hfail hok hpaths
    cases rem with
    | zero => omega
    | succ rem =>
      obtain ⟨c, hc⟩ := isOk_exists _ (hok 0 (by omega))
      rw [show seg + 0 = seg from rfl] at hc
      have hyp : ∀ a, a < complete.length → seg = 0 ∨ (spaths seg).getD a [] ≠ [] := by
        intro a ha
        by_cases h0 : seg = 0
        · exact Or.inl h0
        · refine Or.inr ?_
          have h2 := hpaths 0 a (by omega) (by omega) ha
          simpa using h2
      obtain ⟨res, hres, hreslen, _⟩ := stitchAgents_ok seg complete (spaths seg) hyp
      have hfail2 : solver (seg + 1 + k) = .err reason := by
        have he : seg + (k + 1) = seg + 1 + k := by omega
        rwa [he] at hfail
      have hok2 : ∀ j, j < k → (solver (seg + 1 + j)).isOk = true := by
        intro j hj
        have h2 := hok (j + 1) (by omega)
        have he : seg + (j + 1) = seg + 1 + j := by omega
        rwa [he] at h2
      have hpaths2 : ∀ j a, j < k → 0 < seg + 1 + j → a < res.length → (spaths (seg + 1 + j)).getD a [] ≠ [] := by
        intro j a hj hpos ha
        have h2 := hpaths (j + 1) a (by omega) (by omega) (by omega)
        have he : seg + (j + 1) = seg + 1 + j := by omega
        rwa [he] at h2
      have hrec := ih (seg + 1) rem res (cost + costContribution c) (by omega) hfail2 hok2 hpaths2
      rw [runLoop_succ, hc, hres]
      have he : seg + 1 + k = seg + (k + 1) := by omega
      rwa [he] at hrec

/-! ### Claims C1-C5, C8 -/


theorem getD_map_lt {α β : Type} (f : α → β) (l : List α) (a : Nat) (d : β) (d2 : α)
    (h : a < l.length) : (l.map f).getD a d = f (l.getD a d2) := by
  rw [List.getD_eq_getElem _ _ (by simpa using h), List.getD_eq_getElem _ _ h, List.getElem_map]

theorem decompose_getD (seqs : List (List Point)) (i : Nat) (h : i < numSegments seqs) :
    (decompose seqs).getD i [] = seqs.map (fun seq => segPair seq i) := by
  unfold decompose
  rw [getD_map_lt _ _ _ _ 0 (by simpa using h)]
  rw [List.getD_eq_getElem _ _ (by simpa using h), List.getElem_range]

theorem route_le_numSegments (seqs : List (List Point)) (seq : List Point) (h : seq ∈ seqs) :
    seq.length - 1 ≤ numSegments seqs :=
  le_foldl_max _ 0 _ (List.mem_map_of_mem _ h)

/-- C1: for a nonempty batch of selected agents, the decomposition over the
routes `[start] + waypoints + [goal]` produces exactly
`numSegments = max (route.length - 1)` segments; every segment has exactly
one pair per agent, in agent order, equal to `(route[i], route[i+1])` while
the agent still has hops and to the stationary `(route.last, route.last)`
afterwards; and the two-agent example of spec section 8 produces the two
stated segments.  (The nonemptiness hypothesis mirrors Python `max` raising
on an empty batch.) -/
theorem c1_decompose_spec (entries : List ScenEntry) (h : entries ≠ []) :
    (decompose (entries.map route)).length = numSegments (entries.map route)
    ∧ (∀ i, i < numSegments (entries.map route) →
        ((decompose (entries.map route)).getD i []).length = entries.length)
    ∧ (∀ i a, i < numSegments (entries.map route) → a < entries.length →
        ((decompose (entries.map route)).getD i []).getD a ((0, 0), (0, 0)) =
          (if i < ((entries.map route).getD a []).length - 1
           then (((entries.map route).getD a []).getD i (0, 0),
                 ((entries.map route).getD a []).getD (i + 1) (0, 0))
           else (((entries.map route).getD a []).getLastD (0, 0),
                 ((entries.map route).getD a []).getLastD (0, 0))))
    ∧ decompose [[((0, 0) : Point), (2, 2), (4, 4)], [((1, 1) : Point), (3, 3)]] =
        [[(((0, 0) : Point), ((2, 2) : Point)), (((1, 1) : Point), ((3, 3) : Point))],
         [(((2, 2) : Point), ((4, 4) : Point)), (((3, 3) : Point), ((3, 3) : Point))]] := by
  refine ⟨by simp [decompose], ?_, ?_, by decide⟩
  · intro i hi
    rw [decompose_getD _ _ hi]
    simp
  · intro i a hi ha
    rw [decompose_getD _ _ hi, getD_map_lt _ _ _ _ [] (by simpa using ha)]
    rfl

theorem c1_decompose_spec_witness :
    (decompose (exampleEntries.map route)).length = numSegments (exampleEntries.map route) :=
  (c1_decompose_spec exampleEntries (by decide)).1

/-- C2 counterexample: at a segment index greater than 0, an empty per-agent
path makes the stitching step raise `IndexError` (`path[0]` on an empty
list), instead of appending "its single point" as the claim states. -/
theorem c2_empty_path_counterexample :
    stitchAgent 1 [((0, 0) : Point)] [] = .error .indexError := by decide

/-- C2 amended: at segment 0 the path is copied verbatim; at a later segment
a path of length at least 2 contributes its points from index 1, a path of
length exactly 1 contributes its single point, and every nonempty path grows
the assembled path by at least one point — but an empty per-agent path (the
fallback for a missing path record) raises an uncaught `IndexError` instead
of appending anything. -/
theorem c2_stitch_amended (seg : Nat) (acc path : List Point) :
    (seg = 0 → stitchAgent seg acc path = .ok path)
    ∧ (seg ≠ 0 → 1 < path.length → stitchAgent seg acc path = .ok (acc ++ path.drop 1))
    ∧ (seg ≠ 0 → path.length = 1 → stitchAgent seg acc path = .ok (acc ++ path))
    ∧ (seg ≠ 0 → path = [] → stitchAgent seg acc path = .error .indexError)
    ∧ (∀ res, seg ≠ 0 → path ≠ [] → stitchAgent seg acc path = .ok res → acc.length < res.length) := by
  refine ⟨?_, ?_, ?_, ?_, ?_⟩
  · intro h0
    rw [h0]
    exact stitchAgent_zero acc path
  · intro h0 h1
    unfold stitchAgent
    rw [if_neg h0, if_pos h1]
  · intro h0 h1
    unfold stitchAgent
    rw [if_neg h0, if_neg (by omega)]
    cases path with
    | nil => simp at h1
    | cons p t =>
      simp at h1
      subst h1
      rfl
  · intro h0 hp
    subst hp
    unfold stitchAgent
    rw [if_neg h0, if_neg (by simp)]
  · intro res h0 hp hok
    exact (stitchAgent_props seg acc path res h0 hp hok).2.2.2

theorem c2_stitch_amended_witness :
    stitchAgent 1 [((0, 0) : Point)] [(5, 5)] = .ok ([((0, 0) : Point)] ++ [(5, 5)]) :=
  (c2_stitch_amended 1 [((0, 0) : Point)] [(5, 5)]).2.2.1 (by decide) (by decide)

/-- C3: if every solved segment outcome satisfies the SegmentOutcome
invariant (one path per agent, each path running from `pairs[a].from` to
`pairs[a].to`), then after stitching any nonempty prefix of segments every
agent's assembled path starts at its declared start `route[a][0]`, and after
all `numSegments` segments it ends at its declared goal `route[a].last`. -/
theorem c3_assembled_endpoints (seqs : List (List Point)) (spaths : Nat → List (List Point))
    (k : Nat) (hlen : ∀ s ∈ seqs, 2 ≤ s.length)
    (hk : 0 < k) (hkle : k ≤ numSegments seqs)
    (hout : ∀ s, s < k → (spaths s).length = seqs.length ∧ ∀ a, a < seqs.length →
        (spaths s).getD a [] ≠ [] ∧
        ((spaths s).getD a []).headD (0, 0) = (segPair (seqs.getD a []) s).1 ∧
        ((spaths s).getD a []).getLastD (0, 0) = (segPair (seqs.getD a []) s).2) :
    isOkE (stitchUpTo spaths seqs.length k) = true
    ∧ ∀ asm, stitchUpTo spaths seqs.length k = .ok asm →
        ∀ a, a < seqs.length →
          (asm.getD a []).headD (0, 0) = (seqs.getD a []).headD (0, 0)
          ∧ (k = numSegments seqs →
              (asm.getD a []).getLastD (0, 0) = (seqs.getD a []).getLastD (0, 0)) := by
  obtain ⟨asm0, hasm0, _, hprops⟩ := stitchUpTo_inv seqs spaths hlen k hk
    (fun s hs a ha => (hout s hs).2 a ha)
  constructor
  · rw [hasm0]
    rfl
  · intro asm hasm a ha
    have heq : asm0 = asm := by
      rw [hasm0] at hasm
      injection hasm
    subst heq
    refine ⟨(hprops a ha).2.1, ?_⟩
    intro hknum
    rw [(hprops a ha).2.2]
    apply segPair_snd_last
    have hmem := getD_mem seqs a [] ha
    have hle := route_le_numSegments seqs _ hmem
    omega

theorem c3_assembled_endpoints_witness :
    isOkE (stitchUpTo (fun _ => [[((0, 0) : Point), (1, 1)]]) 1 1) = true :=
  (c3_assembled_endpoints [[((0, 0) : Point), (1, 1)]] (fun _ => [[((0, 0) : Point), (1, 1)]]) 1
    (by decide) (by decide) (by decide) (by decide)).1

/-- C4: segments are solved strictly in index order: when segment `i` is the
first failing segment (all earlier segments solve and stitch), the run
returns the failure dict for exactly segment `i` with its reason, and the
whole result is unchanged under arbitrary changes to the solver results and
path files of every segment past `i` — no later segment is attempted or
stitched. -/
theorem c4_first_failure (solver solver2 : Nat → SolveResult)
    (spaths spaths2 : Nat → List (List Point)) (numAgents n i : Nat) (reason : FailReason)
    (hin : i < n) (hfail : solver i = .err reason)
    (hok : ∀ j, j < i → (solver j).isOk = true)
    (hpaths : ∀ j a, j < i → 0 < j → a < numAgents → (spaths j).getD a [] ≠ [])
    (hagree : ∀ j, j ≤ i → solver2 j = solver j)
    (hagreeP : ∀ j, j < i → spaths2 j = spaths j) :
    runScenario solver spaths numAgents n = .ok (.failed i reason)
    ∧ runScenario solver2 spaths2 numAgents n = runScenario solver spaths numAgents n := by
  have key : ∀ (sv : Nat → SolveResult) (sp : Nat → List (List Point)),
      sv i = .err reason → (∀ j, j < i → (sv j).isOk = true) →
      (∀ j a, j < i → 0 < j → a < numAgents → (sp j).getD a [] ≠ []) →
      runScenario sv sp numAgents n = .ok (.failed i reason) := by
    intro sv sp hf ho hp
    unfold runScenario
    have hmain := runLoop_first_fail sv sp reason i 0 n (List.replicate numAgents []) 0
      (by omega) (by simpa using hf)
      (fun j hj => by simpa using ho j hj)
      (by
        intro j a hj hpos ha
        have h2 := hp j a hj (by omega) (by simpa using ha)
        simpa using h2)
    simpa using hmain
  have h1 := key solver spaths hfail hok hpaths
  refine ⟨h1, ?_⟩
  have h2 := key solver2 spaths2 (by rw [hagree i (by omega)]; exact hfail)
    (fun j hj => by rw [hagree j (by omega)]; exact hok j hj)
    (fun j a hj hpos ha => by rw [hagreeP j hj]; exact hpaths j a hj hpos ha)
  rw [h1, h2]

theorem c4_first_failure_witness :
    runScenario (fun j => if j = 2 then SolveResult.err .execError else .ok none)
      (fun _ => [[((0, 0) : Point)]]) 1 4 = .ok (.failed 2 .execError) :=
  (c4_first_failure (fun j => if j = 2 then SolveResult.err .execError else .ok none)
    (fun j => if j = 2 then SolveResult.err .execError else .ok none)
    (fun _ => [[((0, 0) : Point)]]) (fun _ => [[((0, 0) : Point)]]) 1 4 2 .execError
    (by decide) (by decide) (by decide)
    (by
      intro j a hj hpos ha
      cases a with
      | zero => simp
      | succ a => omega)
    (fun j hj => rfl) (fun j hj => rfl)).1

/-- C5 counterexample: with a solver that succeeds on every segment but whose
parsed path file for segment 1 is empty, the run loop lets an `IndexError`
escape instead of returning a structured failure. -/
theorem c5_uncaught_indexerror_counterexample :
    runScenario (fun _ => SolveResult.ok (some 1))
      (fun s => if s = 0 then [[((0, 0) : Point), (1, 1)]] else []) 1 2 =
      .error .indexError := by decide

/-- C5 amended: every failure of the segment loop is returned as a structured
result and no exception escapes, provided every segment of index greater
than 0 yields a nonempty parsed path for each agent; when some later segment
yields an empty per-agent path, an uncaught `IndexError` escapes the run (in
addition to the caller-side `numAgents <= 0` fault the claim already
permits). -/
theorem c5_no_fault_amended (solver : Nat → SolveResult) (spaths : Nat → List (List Point))
    (numAgents n : Nat)
    (hpaths : ∀ s a, 0 < s → s < n → a < numAgents → (spaths s).getD a [] ≠ []) :
    isOkE (runScenario solver spaths numAgents n) = true := by
  obtain ⟨r, hr⟩ := runLoop_ok solver spaths n 0 (List.replicate numAgents []) 0 (by
    intro j a hj hpos ha
    exact hpaths (0 + j) a (by omega) (by omega) (by simpa using ha))
  unfold runScenario
  rw [hr]
  rfl

theorem c5_no_fault_amended_witness :
    isOkE (runScenario (fun _ => SolveResult.ok none) (fun _ => [[((0, 0) : Point)]]) 1 2) = true :=
  c5_no_fault_amended (fun _ => SolveResult.ok none) (fun _ => [[((0, 0) : Point)]]) 1 2
    (by
      intro s a hs hn ha
      cases a with
      | zero => simp
      | succ a => omega)

/-- C8: when the solver fails on segment 0 of a run with at least one
segment, the run returns the failure dict for segment 0 with that reason;
the failure dict is distinct from every success dict, so it carries neither
assembled paths nor a total cost (both unset), and no cost of any segment at
or beyond the failure is ever accumulated into a reported total. -/
theorem c8_fail_segment_zero (solver : Nat → SolveResult) (spaths : Nat → List (List Point))
    (numAgents n : Nat) (reason : FailReason) (hn : 0 < n) (h0 : solver 0 = .err reason) :
    runScenario solver spaths numAgents n = .ok (.failed 0 reason)
    ∧ ∀ tc ps, RunResult.failed 0 reason ≠ RunResult.completed tc ps := by
  constructor
  · unfold runScenario
    have hmain := runLoop_first_fail solver spaths reason 0 0 n (List.replicate numAgents []) 0
      (by omega) (by simpa using h0)
      (fun j hj => absurd hj (by omega))
      (fun j a hj hpos ha => absurd hj (by omega))
    simpa using hmain
  · intro tc ps hc
    exact RunResult.noConfusion hc

theorem c8_fail_segment_zero_witness :
    runScenario (fun _ => SolveResult.err (.timeout 60)) (fun _ => []) 2 3 =
      .ok (.failed 0 (.timeout 60)) :=
  (c8_fail_segment_zero (fun _ => SolveResult.err (.timeout 60)) (fun _ => []) 2 3 (.timeout 60)
    (by decide) rfl).1

/-! ### Claims C6, C7 -/


theorem processEecbsResult_ok_marker (rc : Int) (out : PyStr) (c : Option Int)
    (h : processEecbsResult rc out = .ok c) : containsSucceed (lastLine out) = true := by
  simp only [processEecbsResult] at h
  by_cases hrc : rc ≠ 0
  · rw [if_pos hrc] at h
    cases h
  · rw [if_neg hrc] at h
    by_cases hnil : splitOnChar '\n' (trimChars out) = []
    · rw [if_pos hnil] at h
      cases h
    · rw [if_neg hnil] at h
      by_cases hm : containsSucceed ((splitOnChar '\n' (trimChars out)).getLastD []) = false
      · rw [if_pos hm] at h
        cases h
      · cases hb : containsSucceed ((splitOnChar '\n' (trimChars out)).getLastD []) with
        | true => exact hb
        | false => exact absurd hb hm

/-- C7: on a normally terminated solver process, the adapter reports success
only when the final stdout line contains the `Succeed` marker; when the
marker is absent the outcome is a failure even for exit status 0. -/
theorem c7_success_marker (rc : Int) (out : PyStr) :
    (∀ c, processEecbsResult rc out = .ok c → containsSucceed (lastLine out) = true)
    ∧ (containsSucceed (lastLine out) = false → ∀ c, processEecbsResult rc out ≠ .ok c) := by
  constructor
  · intro c hc
    exact processEecbsResult_ok_marker rc out c hc
  · intro hfalse c hc
    have htrue := processEecbsResult_ok_marker rc out c hc
    rw [hfalse] at htrue
    cases htrue

theorem c7_success_marker_witness :
    processEecbsResult 0 "foo".toList ≠ SolveResult.ok (some 6) :=
  (c7_success_marker 0 "foo".toList).2 (by decide) (some 6)

/-- C6 counterexample: a success status line whose fifth comma field is
present but not numeric makes `int(parts[4])` raise; the blanket `except`
turns the segment into a failure, not into a success with an absent cost as
the claim states. -/
theorem c6_unparsable_cost_counterexample :
    processEecbsResult 0 "ok : Succeed,a,t,0,x7,".toList =
      .err (.costParseError "x7".toList) := by decide

/-- C6 amended: on a success-marked status line the cost is read from the
fifth comma field; when the field is absent (fewer than five fields) the
cost is `None` and the segment still succeeds, but when the field is present
and does not parse as an integer the segment is reported as a failure (the
`ValueError` surfaces as an execution error), not as a success with absent
cost; the stitcher adds `cost if cost else 0`, so an absent cost contributes
0 and a present cost contributes its value. -/
theorem c6_cost_amended (out : PyStr)
    (hnil : splitOnChar '\n' (trimChars out) ≠ [])
    (hmarker : containsSucceed (lastLine out) = true) :
    ((splitOnChar ',' (lastLine out)).length < 5 → processEecbsResult 0 out = .ok none)
    ∧ (∀ c, 5 ≤ (splitOnChar ',' (lastLine out)).length →
        pyInt? ((splitOnChar ',' (lastLine out)).getD 4 []) = some c →
        processEecbsResult 0 out = .ok (some c))
    ∧ (5 ≤ (splitOnChar ',' (lastLine out)).length →
        pyInt? ((splitOnChar ',' (lastLine out)).getD 4 []) = none →
        processEecbsResult 0 out =
          .err (.costParseError ((splitOnChar ',' (lastLine out)).getD 4 [])))
    ∧ costContribution none = 0
    ∧ (∀ c : Int, costContribution (some c) = c) := by
  have hm2 : containsSucceed ((splitOnChar '\n' (trimChars out)).getLastD []) = true := hmarker
  have hbase : processEecbsResult 0 out =
      (if 5 ≤ (splitOnChar ',' (lastLine out)).length then
        match pyInt? ((splitOnChar ',' (lastLine out)).getD 4 []) with
        | some c => SolveResult.ok (some c)
        | none => SolveResult.err (.costParseError ((splitOnChar ',' (lastLine out)).getD 4 []))
       else SolveResult.ok none) := by
    simp only [processEecbsResult]
    rw [if_neg (show ¬((0 : Int) ≠ 0) by simp), if_neg hnil,
        if_neg (show ¬(containsSucceed ((splitOnChar '\n' (trimChars out)).getLastD []) = false)
          from by rw [hm2]; simp)]
    rfl
  refine ⟨?_, ?_, ?_, rfl, ?_⟩
  · intro h5
    rw [hbase, if_neg (by omega)]
  · intro c h5 hp
    rw [hbase, if_pos h5, hp]
  · intro h5 hp
    rw [hbase, if_pos h5, hp]
  · intro c
    by_cases hc : c = 0 <;> simp [costContribution, hc]

theorem c6_cost_amended_witness :
    processEecbsResult 0 "Succeed,1,2".toList = SolveResult.ok none :=
  (c6_cost_amended "Succeed,1,2".toList (by decide) (by decide)).1 (by decide)

/-! ### Claims C9, C10 -/


theorem bind_some_inv {α β : Type} {x : Option α} {f : α → Option β} {b : β}
    (h : x.bind f = some b) : ∃ a, x = some a ∧ f a = some b := by
  cases x with
  | none => cases h
  | some a => exact ⟨a, rfl, h⟩

theorem pairUp_odd : ∀ ws : List PyStr, ws.length % 2 = 1 → pairUp ws = pairUp ws.dropLast
  | [], h => by simp at h
  | [_], _ => rfl
  | x :: y :: rest, h => by
    have h2 : rest.length % 2 = 1 := by
      simp only [List.length_cons] at h
      omega
    have hd : (x :: y :: rest).dropLast = x :: y :: rest.dropLast := by
      cases rest with
      | nil => simp at h2
      | cons r0 rs => rfl
    rw [hd]
    simp only [pairUp]
    rw [pairUp_odd rest h2]

/-- C9 counterexample: a line with fewer than 10 tab-separated fields is
skipped silently (`continue` with no print); the warning branch is reached
only on a numeric parse failure, so such a line is not "rejected with a
reported warning" as the claim states. -/
theorem c9_short_line_counterexample :
    parseLine "0\tmap\t8".toList = LineResult.skipSilent
    ∧ LineResult.skipSilent ≠ LineResult.skipWarn ("0\tmap\t8".toList) := by
  exact ⟨by decide, by decide⟩

/-- C9 amended: a nonblank line with fewer than 10 tab-separated fields is
skipped silently (no warning); a line with at least 10 fields whose numeric
fields fail to parse is skipped with a reported warning; a rejected line
never aborts parsing — the remaining lines produce the same entries; and an
odd trailing waypoint coordinate with no paired y value is discarded. -/
theorem c9_parse_amended :
    (∀ raw : PyStr, trimChars raw ≠ [] → (splitOnChar '\t' (trimChars raw)).length < 10 →
        parseLine raw = .skipSilent)
    ∧ (∀ raw : PyStr, trimChars raw ≠ [] → 10 ≤ (splitOnChar '\t' (trimChars raw)).length →
        parseFields (splitOnChar '\t' (trimChars raw)) = none →
        parseLine raw = .skipWarn (trimChars raw))
    ∧ (∀ l rest, (∀ e, parseLine l ≠ .entry e) →
        (parseLines (l :: rest)).1 = (parseLines rest).1)
    ∧ (∀ ws : List PyStr, ws.length % 2 = 1 → pairUp ws = pairUp ws.dropLast) := by
  refine ⟨?_, ?_, ?_, pairUp_odd⟩
  · intro raw h1 h2
    simp only [parseLine]
    rw [if_neg h1, if_pos h2]
  · intro raw h1 h2 h3
    simp only [parseLine]
    rw [if_neg h1, if_neg (by omega), h3]
  · intro l rest h
    simp only [parseLines]
    cases hp : parseLine l with
    | entry e => exact absurd hp (h e)
    | skipSilent => rfl
    | skipWarn w => rfl

theorem c9_parse_amended_witness :
    pairUp (["1", "2", "3"].map String.toList) =
      pairUp ((["1", "2", "3"].map String.toList).dropLast) :=
  c9_parse_amended.2.2.2 (["1", "2", "3"].map String.toList) (by decide)

/-- C10: two scenario lines that differ only in the declared `numWaypoints`
field (both parsing as integers) produce entries with identical waypoint
lists: the waypoints are determined solely by the complete coordinate pairs
of the payload field, the second line is accepted, and no mismatch between
the declared count and the pairs actually present is ever detected. -/
theorem c10_numwaypoints_ignored (parts1 parts2 : List PyStr) (e1 : ScenEntry) (n : Int)
    (hlen : parts1.length = parts2.length)
    (hagree : ∀ i, i ≠ 9 → parts1.getD i [] = parts2.getD i [])
    (h1 : parseFields parts1 = some e1)
    (h2 : pyInt? (parts2.getD 9 []) = some n) :
    (parseFields parts2).map ScenEntry.waypoints = some e1.waypoints
    ∧ (parseFields parts2).map ScenEntry.numWaypoints = some n := by
  unfold parseFields at h1
  obtain ⟨b0, hb0, h1⟩ := bind_some_inv h1
  obtain ⟨b2, hb2, h1⟩ := bind_some_inv h1
  obtain ⟨b3, hb3, h1⟩ := bind_some_inv h1
  obtain ⟨b4, hb4, h1⟩ := bind_some_inv h1
  obtain ⟨b5, hb5, h1⟩ := bind_some_inv h1
  obtain ⟨b6, hb6, h1⟩ := bind_some_inv h1
  obtain ⟨b7, hb7, h1⟩ := bind_some_inv h1
  have g0 : parts2.getD 0 [] = parts1.getD 0 [] := (hagree 0 (by omega)).symm
  have g1 : parts2.getD 1 [] = parts1.getD 1 [] := (hagree 1 (by omega)).symm
  have g2 : parts2.getD 2 [] = parts1.getD 2 [] := (hagree 2 (by omega)).symm
  have g3 : parts2.getD 3 [] = parts1.getD 3 [] := (hagree 3 (by omega)).symm
  have g4 : parts2.getD 4 [] = parts1.getD 4 [] := (hagree 4 (by omega)).symm
  have g5 : parts2.getD 5 [] = parts1.getD 5 [] := (hagree 5 (by omega)).symm
  have g6 : parts2.getD 6 [] = parts1.getD 6 [] := (hagree 6 (by omega)).symm
  have g7 : parts2.getD 7 [] = parts1.getD 7 [] := (hagree 7 (by omega)).symm
  have g8 : parts2.getD 8 [] = parts1.getD 8 [] := (hagree 8 (by omega)).symm
  have g10 : parts2.getD 10 [] = parts1.getD 10 [] := (hagree 10 (by omega)).symm
  have glen : parts2.length = parts1.length := hlen.symm
  by_cases hfl : pyFloatOk (parts1.getD 8 [])
  · rw [if_pos hfl] at h1
    obtain ⟨nw, hnw, h1⟩ := bind_some_inv h1
    by_cases hl10 : parts1.length > 10
    · rw [if_pos hl10] at h1
      simp only [Option.some_bind] at h1
      obtain ⟨wps, hwps, hsome⟩ := bind_some_inv h1
      injection hsome with he
      subst he
      unfold parseFields
      rw [g0, g1, g2, g3, g4, g5, g6, g7, g8, g10, glen,
        hb0, hb2, hb3, hb4, hb5, hb6, hb7, h2]
      simp only [Option.bind_eq_bind', Option.some_bind]
      rw [if_pos hfl, if_pos hl10, hwps]
      simp only [Option.some_bind]
      exact ⟨rfl, rfl⟩
    · rw [if_neg hl10] at h1
      simp only [Option.some_bind] at h1
      injection h1 with he
      subst he
      unfold parseFields
      rw [g0, g1, g2, g3, g4, g5, g6, g7, g8, g10, glen,
        hb0, hb2, hb3, hb4, hb5, hb6, hb7, h2]
      simp only [Option.bind_eq_bind', Option.some_bind]
      rw [if_pos hfl, if_neg hl10]
      exact ⟨rfl, rfl⟩
  · rw [if_neg hfl] at h1
    cases h1

theorem c10_numwaypoints_ignored_witness :
    (parseFields (["0", "m", "8", "8", "1", "2", "3", "4", "0.0", "9", "5 6"].map String.toList)).map
        ScenEntry.waypoints = some [((5 : Int), (6 : Int))] :=
  (c10_numwaypoints_ignored
    (["0", "m", "8", "8", "1", "2", "3", "4", "0.0", "1", "5 6"].map String.toList)
    (["0", "m", "8", "8", "1", "2", "3", "4", "0.0", "9", "5 6"].map String.toList)
    ⟨0, "m".toList, 8, 8, (1, 2), (3, 4), "0.0".toList, 1, [(5, 6)]⟩ 9
    (by decide)
    (by
      intro i hi
      rcases Nat.lt_or_ge i 11 with h | h
      · interval_cases i <;> first | rfl | exact absurd rfl hi
      · obtain ⟨m, rfl⟩ : ∃ m, i = m + 11 := ⟨i - 11, by omega⟩
        rfl)
    (by decide) (by decide)).1

end WaypointEecbs
